import Mathlib

/-!
Verification development for the `dataPersistence.js` persistence layer of
the TWtab repository: a shallow embedding of the four record managers
(UserManager, GameStateManager, GameHistoryManager, SettingsManager) over a
model of the browser's synchronous key-value store, together with proofs of
the specification's claims about them.

Modelling conventions:
* JSON values are the inductive `JVal`.  Machine numbers appearing in the
  source (`Date.now()` ids) are integers, so `JVal.num` carries an `Int`.
* `localStorage` holds, per partition, either nothing (`Stored.absent`,
  JS `null` from `getItem`), an unparseable payload (`Stored.malformed`,
  `JSON.parse` throws), or a payload that parses to a value
  (`Stored.val v`).  Writes of this layer always store well-formed JSON, so
  `setItem` stores `Stored.val` directly; `JSON.parse ∘ JSON.stringify` is
  the identity on `JVal`.
* A `setItem` call that raises (quota exceeded) is modelled by a boolean
  oracle argument `setRaises` on the operations that write.
* JS strict equality `===` on primitives is `jPrimEq`; on objects and
  arrays it is reference equality, modelled as `false` (two distinct
  expressions denote distinct references).  `undefined` is `Option.none`.
* Wall-clock values (`new Date().toISOString()`, `Date.now()`) are passed
  in as explicit parameters.
-/

/-- JSON values, the data manipulated by the persistence layer. -/
inductive JVal where
  | null
  | bool (b : Bool)
  | num (n : Int)
  | str (s : String)
  | arr (elems : List JVal)
  | obj (fields : List (String × JVal))

/-- Own enumerable properties of a value, as JS object spread `{...v}`
enumerates them: an object's fields, an array's or string's index
properties, and nothing for primitives. -/
def jFields : JVal → List (String × JVal)
  | .obj fs => fs
  | .arr xs => xs.enum.map (fun p => (toString p.1, p.2))
  | .str s => s.toList.enum.map (fun p => (toString p.1, JVal.str (String.singleton p.2)))
  | _ => []

/-- First-match lookup in a field list (JS property access on an object,
whose keys are unique). -/
def lookupF : List (String × JVal) → String → Option JVal
  | [], _ => none
  | p :: fs, k => if p.1 == k then some p.2 else lookupF fs k

/-- Own-property lookup, `none` for a missing key: this is what
spread-based merging observes, and what the theorems below use to talk
about fields.  Genuine JS property access `v.k`, which additionally
throws a `TypeError` on a `null` receiver, is `jsMember`. -/
def jGet (v : JVal) (k : String) : Option JVal :=
  lookupF (jFields v) k

/-- JS `||`-style choice on option values: first operand if present. -/
def optOr : Option JVal → Option JVal → Option JVal
  | some v, _ => some v
  | none, o => o

/-- JS strict equality `===` on values: structural on primitives,
reference equality (modelled `false`) on distinct objects and arrays. -/
def jPrimEq : JVal → JVal → Bool
  | .null, .null => true
  | .bool a, .bool b => a == b
  | .num a, .num b => a == b
  | .str a, .str b => a == b
  | _, _ => false

/-- JS strict equality on possibly-`undefined` values:
`undefined === undefined` is `true`. -/
def jsEq : Option JVal → Option JVal → Bool
  | none, none => true
  | some a, some b => jPrimEq a b
  | _, _ => false

/-- JS truthiness of a value. -/
def jTruthy : JVal → Bool
  | .null => false
  | .bool b => b
  | .num n => !(n == 0)
  | .str s => !(s == "")
  | _ => true

/-- JS property access `v.k` as an expression: reading a property of
`null` throws a `TypeError` (modelled `.error ()`); on any other value it
yields the own property, or `undefined` (`none`) when missing. -/
def jsMember (v : JVal) (k : String) : Except Unit (Option JVal) :=
  match v with
  | .null => .error ()
  | _ => .ok (jGet v k)

/-- One field of the first spread operand of `{...a, ...b}`, with its value
overridden by `b`'s same-named field when present. -/
def overrideF (b : List (String × JVal)) (p : String × JVal) : String × JVal :=
  match lookupF b p.1 with
  | some w => (p.1, w)
  | none => p

/-- Whether a field list carries key `k`. -/
def keyMem (fs : List (String × JVal)) (k : String) : Bool :=
  fs.any (fun p => p.1 == k)

/-- JS object spread `{...a, ...b}` on field lists: `a`'s fields in place
(values overridden by `b` per key), then `b`'s fields whose keys are new. -/
def objMerge (a b : List (String × JVal)) : List (String × JVal) :=
  a.map (overrideF b) ++ b.filter (fun q => !(keyMem a q.1))

/-- What one `localStorage` slot holds: no key, a payload `JSON.parse`
rejects, or a payload parsing to a value. -/
inductive Stored where
  | absent
  | malformed
  | val (v : JVal)

/-- The four fixed partitions of `STORAGE_KEYS`: `tab_user_data`,
`tab_game_state`, `tab_game_history`, `tab_settings`.  Distinct fields
model the distinct keys. -/
structure Store where
  userData : Stored
  gameState : Stored
  gameHistory : Stored
  settings : Stored

/-- A store in which nothing was ever saved. -/
def emptyStore : Store :=
  { userData := .absent, gameState := .absent, gameHistory := .absent,
    settings := .absent }

/-! ## UserManager -/

/-- `UserManager.getAllUsers`: `data ? JSON.parse(data) : []` with the
`try`/`catch` returning `[]` on a parse error.  The JS function returns the
parsed value whatever it is, so the result is a `JVal` (callers that
require an array fail on anything else). -/
def getAllUsers (st : Store) : JVal :=
  match st.userData with
  | .absent => .arr []
  | .malformed => .arr []
  | .val v => v

/-- Body of `saveUser`'s `findIndex` / `getUser`'s `find` predicate,
`u.username === key` for a target value `key`. -/
def usernameMatches (key : Option JVal) (u : JVal) : Bool :=
  jsEq (jGet u "username") key

/-- The no-throw normal form of `saveUser`'s update: the first record
matching `userData.username` is replaced by the spread-merge, else
`userData` is appended.  `upsertUserE` below is the direct translation of
the `findIndex` scan including the callback's `TypeError`; the two agree
on lists without `null` elements (`upsertUserE_ok`). -/
def upsertUser (userData : JVal) : List JVal → List JVal
  | [] => [userData]
  | u :: rest =>
      if usernameMatches (jGet userData "username") u then
        JVal.obj (objMerge (jFields u) (jFields userData)) :: rest
      else
        u :: upsertUser userData rest

/-- `users.findIndex(u => u.username === userData.username)` followed by
`users[existingIndex] = { ...users[existingIndex], ...userData }` when
found, `users.push(userData)` otherwise, as the scan the source performs:
the callback evaluates `u.username` and then `userData.username`, so it
throws a `TypeError` — propagated to `saveUser`'s catch — when it reaches
a `null` element, or visits any element while `userData` is `null`. -/
def upsertUserE (userData : JVal) : List JVal → Except Unit (List JVal)
  | [] => .ok [userData]
  | u :: rest =>
      match jsMember u "username" with
      | .error e => .error e
      | .ok lu =>
          match jsMember userData "username" with
          | .error e => .error e
          | .ok lr =>
              if jsEq lu lr then
                .ok (JVal.obj (objMerge (jFields u) (jFields userData)) :: rest)
              else
                match upsertUserE userData rest with
                | .error e => .error e
                | .ok l => .ok (u :: l)

/-- `UserManager.saveUser`: reads the stored list, scans and upserts,
writes back.  Returns `false` with the store unchanged when the `try`
block throws: `users.findIndex` applied to a non-array parse result, the
callback's `TypeError` on a `null` receiver, or a raising `setItem`
(`setRaises`). -/
def saveUser (setRaises : Bool) (userData : JVal) (st : Store) : Bool × Store :=
  match getAllUsers st with
  | .arr users =>
      match upsertUserE userData users with
      | .error _ => (false, st)
      | .ok users2 =>
          if setRaises then (false, st)
          else (true, { st with userData := .val (.arr users2) })
  | _ => (false, st)

/-- JS `x || null` applied to a possibly-`undefined` value: a falsy result
becomes `null` (`none`). -/
def jsOrNull : Option JVal → Option JVal
  | some u => if jTruthy u then some u else none
  | none => none

/-- The scan of `users.find(u => u.username === username)`: first match,
with the callback's `TypeError` on a `null` element propagated. -/
def findUserE (key : Option JVal) : List JVal → Except Unit (Option JVal)
  | [] => .ok none
  | u :: rest =>
      match jsMember u "username" with
      | .error e => .error e
      | .ok lu => if jsEq lu key then .ok (some u) else findUserE key rest

/-- `UserManager.getUser`: `users.find(u => u.username === username) || null`.
`getUser` has no `try`/`catch`, so both the `TypeError` from `.find` on a
non-array parse result and the callback's `TypeError` on a `null` element
escape to the caller: modelled as `.error ()`. -/
def getUser (st : Store) (username : String) : Except Unit (Option JVal) :=
  match getAllUsers st with
  | .arr users =>
      match findUserE (some (.str username)) users with
      | .error e => .error e
      | .ok r => .ok (jsOrNull r)
  | _ => .error ()

/-- `UserManager.authenticate`: `getUser`, then
`if (user && user.password === password) return user; return null` — the
truthiness guard runs before the `user.password` access (so that access
never sees `null`), and any error from `getUser` escapes uncaught. -/
def authenticate (st : Store) (username password : String) :
    Except Unit (Option JVal) :=
  match getUser st username with
  | .error e => .error e
  | .ok user =>
      match user with
      | some u =>
          if jTruthy u then
            match jsMember u "password" with
            | .error e => .error e
            | .ok pv =>
                if jsEq pv (some (.str password)) then .ok (some u)
                else .ok none
          else .ok none
      | none => .ok none

/-! ## GameStateManager -/

/-- The snapshot `saveGameState` builds:
`{ ...gameState, timestamp: new Date().toISOString(), version: '1.0' }`,
with the clock reading passed in as `iso`. -/
def stampState (iso : String) (gameState : JVal) : JVal :=
  .obj (objMerge (jFields gameState)
    [("timestamp", .str iso), ("version", .str "1.0")])

/-- `GameStateManager.saveGameState`: builds the stamped snapshot and
writes it; the `catch` turns a raising `setItem` into `false` with the
store untouched. -/
def saveGameState (iso : String) (setRaises : Bool) (gameState : JVal)
    (st : Store) : Bool × Store :=
  if setRaises then (false, st)
  else (true, { st with gameState := .val (stampState iso gameState) })

/-- `GameStateManager.loadGameState`: the decoded snapshot, `null` when
the key is absent or the payload is malformed. -/
def loadGameState (st : Store) : Option JVal :=
  match st.gameState with
  | .absent => none
  | .malformed => none
  | .val v => some v

/-- `GameStateManager.hasSavedGame`:
`localStorage.getItem(STORAGE_KEYS.GAME_STATE) !== null` — an existence
check only, a malformed payload still counts as present. -/
def hasSavedGame (st : Store) : Bool :=
  match st.gameState with
  | .absent => false
  | _ => true

/-- `GameStateManager.clearGameState`: `removeItem`, unconditional. -/
def clearGameState (st : Store) : Store :=
  { st with gameState := .absent }

/-! ## GameHistoryManager -/

/-- `GameHistoryManager.getHistory`: `data ? JSON.parse(data) : []` with
`[]` on a parse error; like `getAllUsers` it returns whatever parsed. -/
def getHistory (st : Store) : JVal :=
  match st.gameHistory with
  | .absent => .arr []
  | .malformed => .arr []
  | .val v => v

/-- The history list as a sequence, for stating collection properties
(`[]` when the payload is not an array). -/
def getHistoryList (st : Store) : List JVal :=
  match getHistory st with
  | .arr l => l
  | _ => []

/-- The record `addGameToHistory` builds:
`{ ...gameData, completedAt: new Date().toISOString(), id: Date.now() }`,
clock readings passed in as `iso` and `idv`. -/
def stampGame (iso : String) (idv : Int) (gameData : JVal) : JVal :=
  .obj (objMerge (jFields gameData)
    [("completedAt", .str iso), ("id", .num idv)])

/-- `GameHistoryManager.addGameToHistory`: `history.unshift(gameRecord)`
then `if (history.length > 50) history.length = 50`, written back.  The
surrounding `try`/`catch` swallows both the `TypeError` from `unshift` on
a non-array parse result and a raising `setItem`, leaving the store
unchanged and reporting nothing. -/
def addGameToHistory (iso : String) (idv : Int) (setRaises : Bool)
    (gameData : JVal) (st : Store) : Store :=
  match getHistory st with
  | .arr history =>
      if setRaises then st
      else
        { st with gameHistory :=
            Stored.val (.arr ((stampGame iso idv gameData :: history).take 50)) }
  | _ => st

/-- `GameHistoryManager.clearHistory`: `removeItem`, unconditional. -/
def clearHistory (st : Store) : Store :=
  { st with gameHistory := .absent }

/-! ## SettingsManager -/

/-- `SettingsManager.saveSettings`: serializes and writes verbatim; a
raising `setItem` is swallowed (no result is returned either way). -/
def saveSettings (setRaises : Bool) (settings : JVal) (st : Store) : Store :=
  if setRaises then st else { st with settings := .val settings }

/-- The fixed default settings record of `loadSettings`. -/
def defaults : List (String × JVal) :=
  [("soundEnabled", .bool true), ("autoSave", .bool true),
   ("difficulty", .str "medium")]

/-- `SettingsManager.loadSettings`:
`data ? { ...defaults, ...JSON.parse(data) } : defaults`, with the `catch`
returning the default record on a parse error. -/
def loadSettings (st : Store) : JVal :=
  match st.settings with
  | .absent => .obj defaults
  | .malformed => .obj defaults
  | .val v => .obj (objMerge defaults (jFields v))

/-! ## Derived predicates and execution models used in the claims -/

/-- Whether the stored user payload parses to something other than an
array (the case in which `saveUser` catches a `TypeError` and `getUser`
throws one). -/
def userDataNonArray (st : Store) : Bool :=
  match getAllUsers st with
  | .arr _ => false
  | _ => true

/-- Whether `saveUser`'s `try` block throws before reaching `setItem`:
the stored payload parses to a non-array value (`users.findIndex` is not
a function) or the `findIndex` callback throws its `TypeError` during the
scan. -/
def saveUserThrows (userData : JVal) (st : Store) : Bool :=
  match getAllUsers st with
  | .arr users =>
      match upsertUserE userData users with
      | .error _ => true
      | .ok _ => false
  | _ => true

/-- The history-collection invariant of the specification: the partition
is empty (absent or undecodable, both read back as the empty sequence) or
holds an array of at most 50 entries. -/
def histInvariant (st : Store) : Bool :=
  match st.gameHistory with
  | .val (.arr l) => decide (l.length <= 50)
  | .val _ => false
  | _ => true

/-- A sequence of `addGameToHistory` calls, each with its clock readings
(ISO string and `Date.now()` id) and game data, with `setItem`
succeeding. -/
def runAdds (calls : List (String × Int × JVal)) (st : Store) : Store :=
  calls.foldl (fun s c => addGameToHistory c.1 c.2.1 false c.2.2 s) st

/-- Sixty `addGameToHistory` calls with pairwise-distinct game data and
distinct ids (`Date.now()` readings 0..59): the scenario named by the
specification. -/
def sixtyCalls : List (String × Int × JVal) :=
  (List.range 60).map (fun i => ("t", ((i : Int), JVal.obj [("n", JVal.num i)])))

/-! ### The debounced auto-save, as an event machine

`GameStateManager.autoSave` closes over one module-level `timeout` slot.
Each call does `clearTimeout` on any pending timer and `setTimeout` of a
callback running `saveGameState(gameState)` after 2000 ms.  The machine
below replays a time-ordered list of events (an `autoSave` call or a
`clearGameState` call, at a given millisecond) against that slot: a
pending timer whose deadline has been reached fires before the next
event is processed, and `runEvents` finally lets time advance to `T`.
The single shared slot is the `Option PendingSave` field: at most one
pending timer can exist at any instant by construction. -/

/-- The pending `setTimeout`: its fire deadline and the captured
`gameState` argument. -/
structure PendingSave where
  deadline : Nat
  gameState : JVal

/-- An external event: an `autoSave(s)` call or a `clearGameState()`
call. -/
inductive GSEvent where
  | auto (s : JVal)
  | clear

/-- Machine state: the shared timer slot, the store, and the log of
auto-save writes performed so far (write time and the state written). -/
structure RunState where
  pending : Option PendingSave
  store : Store
  writes : List (Nat × JVal)

/-- The body of `autoSave`: `if (timeout) clearTimeout(timeout);`
`timeout = setTimeout(..., 2000)` — the slot is overwritten
unconditionally, cancelling any not-yet-fired write. -/
def autoSaveCall (now : Nat) (s : JVal) (_pending : Option PendingSave) :
    Option PendingSave :=
  some { deadline := now + 2000, gameState := s }

/-- Let the pending timer fire if its deadline has been reached by `now`:
the callback runs `GameStateManager.saveGameState(gameState)` (stamping it
with the clock reading `iso deadline`) and the write is logged. -/
def fireDue (iso : Nat → String) (now : Nat) (g : RunState) : RunState :=
  match g.pending with
  | some tm =>
      if tm.deadline <= now then
        { pending := none,
          store := (saveGameState (iso tm.deadline) false tm.gameState g.store).2,
          writes := g.writes ++ [(tm.deadline, tm.gameState)] }
      else g
  | none => g

/-- Process one timed event: any due timer fires first, then the event
runs. -/
def procEvent (iso : Nat → String) (g : RunState) (e : Nat × GSEvent) :
    RunState :=
  match e.2 with
  | .auto s =>
      let g2 := fireDue iso e.1 g
      { g2 with pending := autoSaveCall e.1 s g2.pending }
  | .clear =>
      let g2 := fireDue iso e.1 g
      { g2 with store := clearGameState g2.store }

/-- Replay a time-ordered event list from state `g`, then let time
advance to `T`. -/
def runEvents (iso : Nat → String) (evts : List (Nat × GSEvent))
    (g : RunState) (T : Nat) : RunState :=
  fireDue iso T (evts.foldl (procEvent iso) g)

/-- A list of timed `autoSave` calls as an event list. -/
def autoCalls (calls : List (Nat × JVal)) : List (Nat × GSEvent) :=
  calls.map (fun c => (c.1, GSEvent.auto c.2))

/-- The machine started on store `st` with an idle timer slot and no
writes performed. -/
def initRun (st : Store) : RunState :=
  { pending := none, store := st, writes := [] }

/-- The time of the next call, or the observation horizon `T` when no
call follows. -/
def headTime (calls : List (Nat × JVal)) (T : Nat) : Nat :=
  match calls with
  | [] => T
  | (t, _) :: _ => t

/-- The write a pending timer produces by time `now`: one write at its
deadline if the deadline has been reached, none otherwise. -/
def fireList (p : Option PendingSave) (now : Nat) : List (Nat × JVal) :=
  match p with
  | some tm =>
      if tm.deadline <= now then [(tm.deadline, tm.gameState)] else []
  | none => []

/-- Declarative trailing-edge-debounce semantics, for comparison with the
machine: the call at time `t` produces one write at `t + 2000` exactly
when no further call arrives before that deadline (and the horizon `T`
has reached it); any earlier follow-up call cancels it. -/
def quietWrites (calls : List (Nat × JVal)) (T : Nat) : List (Nat × JVal) :=
  match calls with
  | [] => []
  | (t, s) :: rest =>
      fireList (some { deadline := t + 2000, gameState := s })
        (headTime rest T) ++ quietWrites rest T

/-! ## Lemmas about field lookup and object spread -/

theorem overrideF_fst (b : List (String × JVal)) (p : String × JVal) :
    (overrideF b p).1 = p.1 := by
  unfold overrideF
  cases lookupF b p.1 <;> rfl

theorem overrideF_snd (b : List (String × JVal)) (p : String × JVal) :
    (overrideF b p).2 = (lookupF b p.1).getD p.2 := by
  unfold overrideF
  cases lookupF b p.1 <;> rfl

theorem lookupF_append (xs ys : List (String × JVal)) (k : String) :
    lookupF (xs ++ ys) k = optOr (lookupF xs k) (lookupF ys k) := by
  induction xs with
  | nil => simp [lookupF, optOr]
  | cons p xs ih =>
      cases hp : p.1 == k <;> simp [lookupF, hp, optOr, ih]

theorem keyMem_cons (p : String × JVal) (fs : List (String × JVal))
    (k : String) : keyMem (p :: fs) k = ((p.1 == k) || keyMem fs k) := rfl

theorem keyMem_eq_false (fs : List (String × JVal)) (k : String) :
    keyMem fs k = false ↔ lookupF fs k = none := by
  induction fs with
  | nil => simp [keyMem, lookupF]
  | cons p fs ih =>
      cases hp : p.1 == k <;> simp [keyMem_cons, lookupF, hp, ih]

theorem lookupF_filter_keyMem (a b : List (String × JVal)) (k : String)
    (h : keyMem a k = false) :
    lookupF (b.filter (fun q => !(keyMem a q.1))) k = lookupF b k := by
  induction b with
  | nil => rfl
  | cons q b ih =>
      cases hq : q.1 == k
      · cases hk : keyMem a q.1 <;>
          simp [List.filter_cons, hk, lookupF, hq, ih]
      · have hqk : q.1 = k := eq_of_beq hq
        have hk2 : keyMem a q.1 = false := by rw [hqk]; exact h
        simp [List.filter_cons, hk2, lookupF, hq]

theorem lookupF_map_override (a b : List (String × JVal)) (k : String) :
    lookupF (a.map (overrideF b)) k =
      (lookupF a k).map (fun v => (lookupF b k).getD v) := by
  induction a with
  | nil => rfl
  | cons p a ih =>
      cases hp : p.1 == k
      · simp [List.map_cons, lookupF, overrideF_fst, hp, ih]
      · have hk : p.1 = k := eq_of_beq hp
        simp [List.map_cons, lookupF, overrideF_fst, hp, overrideF_snd, hk]

theorem lookupF_objMerge (a b : List (String × JVal)) (k : String) :
    lookupF (objMerge a b) k = optOr (lookupF b k) (lookupF a k) := by
  unfold objMerge
  rw [lookupF_append, lookupF_map_override]
  cases ha : lookupF a k
  · have hm : keyMem a k = false := (keyMem_eq_false a k).mpr ha
    rw [lookupF_filter_keyMem a b k hm]
    cases lookupF b k <;> simp [optOr]
  · cases hb : lookupF b k <;> simp [optOr]

theorem overrideF_override (b : List (String × JVal)) (p : String × JVal) :
    overrideF b (overrideF b p) = overrideF b p := by
  cases h : lookupF b p.1 with
  | none =>
      have h0 : overrideF b p = p := by unfold overrideF; rw [h]
      rw [h0]
      exact h0
  | some w =>
      have h0 : overrideF b p = (p.1, w) := by unfold overrideF; rw [h]
      rw [h0]
      unfold overrideF
      rw [h]

theorem lookupF_of_mem_nodup (b : List (String × JVal)) (p : String × JVal)
    (hn : (b.map Prod.fst).Nodup) (hp : p ∈ b) :
    lookupF b p.1 = some p.2 := by
  induction b with
  | nil => cases hp
  | cons q b ih =>
      rw [List.map_cons, List.nodup_cons] at hn
      rcases List.mem_cons.mp hp with h | h
      · subst h
        simp [lookupF]
      · have hq : q.1 ≠ p.1 := by
          intro he
          exact hn.1 (he ▸ List.mem_map_of_mem Prod.fst h)
        have hb : (q.1 == p.1) = false := by
          cases hbe : q.1 == p.1
          · rfl
          · exact absurd (eq_of_beq hbe) hq
        simp only [lookupF, hb, if_false]
        exact ih hn.2 h

theorem keyMem_of_mem (b : List (String × JVal)) (q : String × JVal)
    (hq : q ∈ b) : keyMem b q.1 = true := by
  induction b with
  | nil => cases hq
  | cons p b ih =>
      rcases List.mem_cons.mp hq with h | h
      · subst h
        simp [keyMem_cons]
      · simp [keyMem_cons, ih h]

theorem map_eq_self_of_forall {α : Type} (l : List α) (f : α → α)
    (h : ∀ p ∈ l, f p = p) : l.map f = l := by
  induction l with
  | nil => rfl
  | cons x l ih =>
      rw [List.map_cons, h x (List.mem_cons_self x l),
        ih (fun p hp => h p (List.mem_cons_of_mem x hp))]

theorem objMerge_nil (b : List (String × JVal)) : objMerge [] b = b := by
  show List.map (overrideF b) [] ++
    b.filter (fun q => !(keyMem [] q.1)) = b
  rw [List.map_nil, List.nil_append]
  apply List.filter_eq_self.mpr
  intro q _
  rfl

theorem keyMem_objMerge_of_mem (a b : List (String × JVal))
    (q : String × JVal) (hq : q ∈ b) : keyMem (objMerge a b) q.1 = true := by
  have h1 : lookupF b q.1 ≠ none := by
    intro h0
    have := (keyMem_eq_false b q.1).mpr h0
    rw [keyMem_of_mem b q hq] at this
    exact Bool.noConfusion this
  cases hkm : keyMem (objMerge a b) q.1
  · have h2 := (keyMem_eq_false (objMerge a b) q.1).mp hkm
    rw [lookupF_objMerge] at h2
    cases hb2 : lookupF b q.1 with
    | none => exact absurd hb2 h1
    | some w => rw [hb2] at h2; exact Option.noConfusion h2
  · rfl

theorem objMerge_idem (a b : List (String × JVal))
    (hb : (b.map Prod.fst).Nodup) :
    objMerge (objMerge a b) b = objMerge a b := by
  have hmap : (objMerge a b).map (overrideF b) = objMerge a b := by
    apply map_eq_self_of_forall
    intro p hp
    rcases List.mem_append.mp hp with h | h
    · rcases List.mem_map.mp h with ⟨p0, _, hpe⟩
      rw [← hpe]
      exact overrideF_override b p0
    · have hpb : p ∈ b := List.mem_of_mem_filter h
      have hl : lookupF b p.1 = some p.2 := lookupF_of_mem_nodup b p hb hpb
      unfold overrideF
      rw [hl]
  have hfil : b.filter (fun q => !(keyMem (objMerge a b) q.1)) = [] := by
    apply List.filter_eq_nil_iff.mpr
    intro q hq
    rw [keyMem_objMerge_of_mem a b q hq]
    simp
  show (objMerge a b).map (overrideF b) ++
    b.filter (fun q => !(keyMem (objMerge a b) q.1)) = objMerge a b
  rw [hmap, hfil, List.append_nil]

theorem objMerge_self (b : List (String × JVal))
    (hb : (b.map Prod.fst).Nodup) : objMerge b b = b := by
  have h := objMerge_idem [] b hb
  rw [objMerge_nil] at h
  exact h

/-! ## Lemmas about JS equality and truthiness -/

theorem jsEq_some_str (v : Option JVal) (s : String) :
    jsEq v (some (.str s)) = true ↔ v = some (.str s) := by
  cases v with
  | none => simp [jsEq]
  | some w => cases w <;> simp [jsEq, jPrimEq]

theorem jTruthy_of_jGet (u : JVal) (k : String) (w : JVal)
    (h : jGet u k = some w) : jTruthy u = true := by
  cases u with
  | null => exact Option.noConfusion h
  | bool b => exact Option.noConfusion h
  | num n => exact Option.noConfusion h
  | arr xs => rfl
  | obj fs => rfl
  | str s =>
      cases hs : s == ""
      · simp [jTruthy, hs]
      · have hse : s = "" := eq_of_beq hs
        subst hse
        exact Option.noConfusion h

theorem jsEq_refl_str (s : String) :
    jsEq (some (.str s)) (some (.str s)) = true := by
  simp [jsEq, jPrimEq]

/-! ## Lemmas about `upsertUser` -/

theorem usernameMatches_merge (a rf : List (String × JVal)) (uname : String)
    (hu : lookupF rf "username" = some (.str uname)) :
    usernameMatches (some (.str uname)) (JVal.obj (objMerge a rf)) = true := by
  unfold usernameMatches
  have hg : jGet (JVal.obj (objMerge a rf)) "username" = some (.str uname) := by
    show lookupF (objMerge a rf) "username" = some (.str uname)
    rw [lookupF_objMerge, hu]
    rfl
  rw [hg]
  exact jsEq_refl_str uname

theorem upsertUser_cons_pos (r u : JVal) (rest : List JVal)
    (h : usernameMatches (jGet r "username") u = true) :
    upsertUser r (u :: rest) =
      JVal.obj (objMerge (jFields u) (jFields r)) :: rest := by
  simp [upsertUser, h]

theorem upsertUser_cons_neg (r u : JVal) (rest : List JVal)
    (h : usernameMatches (jGet r "username") u = false) :
    upsertUser r (u :: rest) = u :: upsertUser r rest := by
  simp [upsertUser, h]

theorem find_upsertUser_found (r : JVal) (uname : String) (users : List JVal)
    (hu : jGet r "username" = some (.str uname)) (prev : JVal)
    (hf : users.find? (usernameMatches (some (.str uname))) = some prev) :
    (upsertUser r users).find? (usernameMatches (some (.str uname))) =
      some (.obj (objMerge (jFields prev) (jFields r))) := by
  induction users with
  | nil => simp [List.find?] at hf
  | cons u rest ih =>
      cases hP : usernameMatches (some (.str uname)) u
      · have hP2 : usernameMatches (jGet r "username") u = false := by
          rw [hu]; exact hP
        rw [List.find?_cons_of_neg _ (by rw [hP]; exact Bool.false_ne_true)] at hf
        rw [upsertUser_cons_neg r u rest hP2,
          List.find?_cons_of_neg _ (by rw [hP]; exact Bool.false_ne_true)]
        exact ih hf
      · have hP2 : usernameMatches (jGet r "username") u = true := by
          rw [hu]; exact hP
        rw [List.find?_cons_of_pos _ hP] at hf
        have hpu : prev = u := (Option.some.inj hf).symm
        subst hpu
        rw [upsertUser_cons_pos r prev rest hP2]
        exact List.find?_cons_of_pos _
          (usernameMatches_merge (jFields prev) (jFields r) uname hu)

theorem find_upsertUser_new (r : JVal) (uname : String) (users : List JVal)
    (hu : jGet r "username" = some (.str uname))
    (hf : users.find? (usernameMatches (some (.str uname))) = none) :
    (upsertUser r users).find? (usernameMatches (some (.str uname))) =
      some r := by
  induction users with
  | nil =>
      show List.find? _ [r] = some r
      apply List.find?_cons_of_pos
      unfold usernameMatches
      rw [hu]
      exact jsEq_refl_str uname
  | cons u rest ih =>
      cases hP : usernameMatches (some (.str uname)) u
      · have hP2 : usernameMatches (jGet r "username") u = false := by
          rw [hu]; exact hP
        rw [List.find?_cons_of_neg _ (by rw [hP]; exact Bool.false_ne_true)] at hf
        rw [upsertUser_cons_neg r u rest hP2,
          List.find?_cons_of_neg _ (by rw [hP]; exact Bool.false_ne_true)]
        exact ih hf
      · rw [List.find?_cons_of_pos _ hP] at hf
        exact Option.noConfusion hf

theorem upsertUser_idem (rf : List (String × JVal)) (uname : String)
    (users : List JVal)
    (hu : jGet (JVal.obj rf) "username" = some (.str uname))
    (hn : (rf.map Prod.fst).Nodup) :
    upsertUser (JVal.obj rf) (upsertUser (JVal.obj rf) users) =
      upsertUser (JVal.obj rf) users := by
  have hul : lookupF rf "username" = some (.str uname) := hu
  induction users with
  | nil =>
      show upsertUser (JVal.obj rf) [JVal.obj rf] = [JVal.obj rf]
      have hself : usernameMatches (jGet (JVal.obj rf) "username")
          (JVal.obj rf) = true := by
        unfold usernameMatches
        rw [hu]
        exact jsEq_refl_str uname
      rw [upsertUser_cons_pos (JVal.obj rf) (JVal.obj rf) [] hself]
      show JVal.obj (objMerge rf rf) :: [] = [JVal.obj rf]
      rw [objMerge_self rf hn]
  | cons u rest ih =>
      cases hP : usernameMatches (jGet (JVal.obj rf) "username") u
      · rw [upsertUser_cons_neg (JVal.obj rf) u rest hP,
          upsertUser_cons_neg (JVal.obj rf) u (upsertUser (JVal.obj rf) rest) hP,
          ih]
      · rw [upsertUser_cons_pos (JVal.obj rf) u rest hP]
        have hP2 : usernameMatches (jGet (JVal.obj rf) "username")
            (JVal.obj (objMerge (jFields u) (jFields (JVal.obj rf)))) = true := by
          rw [hu]
          exact usernameMatches_merge (jFields u) rf uname hul
        rw [upsertUser_cons_pos (JVal.obj rf) _ rest hP2]
        show JVal.obj (objMerge (objMerge (jFields u) rf) rf) :: rest =
          JVal.obj (objMerge (jFields u) rf) :: rest
        rw [objMerge_idem (jFields u) rf hn]

/-! ## Lemmas about user lookup and authentication -/

theorem usernameMatches_iff (uname : String) (u : JVal) :
    usernameMatches (some (.str uname)) u = true ↔
      jGet u "username" = some (.str uname) :=
  jsEq_some_str (jGet u "username") uname

theorem find_username_unique (users : List JVal) (uname : String) (r : JVal)
    (hn : (users.map (fun x => jGet x "username")).Nodup)
    (hr : r ∈ users) (hru : jGet r "username" = some (.str uname)) :
    users.find? (usernameMatches (some (.str uname))) = some r := by
  induction users with
  | nil => cases hr
  | cons u rest ih =>
      rw [List.map_cons, List.nodup_cons] at hn
      rcases List.mem_cons.mp hr with h | h
      · subst h
        exact List.find?_cons_of_pos _ ((usernameMatches_iff uname r).mpr hru)
      · cases hP : usernameMatches (some (.str uname)) u
        · rw [List.find?_cons_of_neg _ (by rw [hP]; exact Bool.false_ne_true)]
          exact ih hn.2 h
        · exfalso
          have hKu : jGet u "username" = some (.str uname) :=
            (usernameMatches_iff uname u).mp hP
          apply hn.1
          rw [hKu, ← hru]
          exact List.mem_map_of_mem (fun x => jGet x "username") h

theorem jsMember_not_null (v : JVal) (k : String) (h : v ≠ JVal.null) :
    jsMember v k = .ok (jGet v k) := by
  cases v with
  | null => exact absurd rfl h
  | bool b => rfl
  | num n => rfl
  | str s => rfl
  | arr xs => rfl
  | obj fs => rfl

theorem ne_null_of_jGet (u : JVal) (k : String) (w : JVal)
    (h : jGet u k = some w) : u ≠ JVal.null := by
  intro he
  subst he
  exact Option.noConfusion h

theorem upsertUserE_ok (userData : JVal) (users : List JVal)
    (hr : userData ≠ JVal.null) (hnn : ∀ u ∈ users, u ≠ JVal.null) :
    upsertUserE userData users = .ok (upsertUser userData users) := by
  induction users with
  | nil => rfl
  | cons u rest ih =>
      have hu := hnn u (List.mem_cons_self u rest)
      have hrest : ∀ x ∈ rest, x ≠ JVal.null :=
        fun x hx => hnn x (List.mem_cons_of_mem u hx)
      simp only [upsertUserE, jsMember_not_null u "username" hu,
        jsMember_not_null userData "username" hr]
      cases hm : usernameMatches (jGet userData "username") u
      · have hm2 : jsEq (jGet u "username") (jGet userData "username") = false := hm
        simp only [hm2, Bool.false_eq_true, if_false]
        rw [ih hrest, upsertUser_cons_neg userData u rest hm]
      · have hm2 : jsEq (jGet u "username") (jGet userData "username") = true := hm
        simp only [hm2, if_true]
        rw [upsertUser_cons_pos userData u rest hm]

theorem findUserE_ok (key : Option JVal) (users : List JVal)
    (hnn : ∀ u ∈ users, u ≠ JVal.null) :
    findUserE key users = .ok (users.find? (usernameMatches key)) := by
  induction users with
  | nil => rfl
  | cons u rest ih =>
      have hu := hnn u (List.mem_cons_self u rest)
      have hrest : ∀ x ∈ rest, x ≠ JVal.null :=
        fun x hx => hnn x (List.mem_cons_of_mem u hx)
      simp only [findUserE, jsMember_not_null u "username" hu]
      cases hm : usernameMatches key u
      · have hm2 : jsEq (jGet u "username") key = false := hm
        simp only [hm2, Bool.false_eq_true, if_false]
        rw [ih hrest,
          List.find?_cons_of_neg _ (by rw [hm]; exact Bool.false_ne_true)]
      · have hm2 : jsEq (jGet u "username") key = true := hm
        simp only [hm2, if_true]
        rw [List.find?_cons_of_pos _ hm]

theorem upsertUser_no_null (userData : JVal) (users : List JVal)
    (hr : userData ≠ JVal.null) (hnn : ∀ u ∈ users, u ≠ JVal.null) :
    ∀ x ∈ upsertUser userData users, x ≠ JVal.null := by
  induction users with
  | nil =>
      intro x hx
      have hx2 : x ∈ [userData] := hx
      rw [List.mem_singleton.mp hx2]
      exact hr
  | cons u rest ih =>
      intro x hx
      have hu := hnn u (List.mem_cons_self u rest)
      have hrest : ∀ y ∈ rest, y ≠ JVal.null :=
        fun y hy => hnn y (List.mem_cons_of_mem u hy)
      cases hm : usernameMatches (jGet userData "username") u
      · rw [upsertUser_cons_neg userData u rest hm] at hx
        rcases List.mem_cons.mp hx with h | h
        · rw [h]; exact hu
        · exact ih hrest x h
      · rw [upsertUser_cons_pos userData u rest hm] at hx
        rcases List.mem_cons.mp hx with h | h
        · rw [h]; intro hc; exact JVal.noConfusion hc
        · exact hnn x (List.mem_cons_of_mem u h)

theorem getUser_arr (st : Store) (users : List JVal) (uname : String)
    (harr : getAllUsers st = .arr users)
    (hnn : ∀ u ∈ users, u ≠ JVal.null) :
    getUser st uname =
      .ok (jsOrNull (users.find? (usernameMatches (some (.str uname))))) := by
  unfold getUser
  rw [harr]
  show (match findUserE (some (.str uname)) users with
    | Except.error e => Except.error e
    | Except.ok r => Except.ok (jsOrNull r)) = _
  rw [findUserE_ok (some (.str uname)) users hnn]

theorem authenticate_of_find_none (st : Store) (users : List JVal)
    (uname pw : String) (harr : getAllUsers st = .arr users)
    (hnn : ∀ u ∈ users, u ≠ JVal.null)
    (hF : users.find? (usernameMatches (some (.str uname))) = none) :
    authenticate st uname pw = .ok none := by
  unfold authenticate
  rw [getUser_arr st users uname harr hnn, hF]
  rfl

theorem authenticate_of_find_some (st : Store) (users : List JVal)
    (uname pw : String) (u : JVal) (harr : getAllUsers st = .arr users)
    (hnn : ∀ x ∈ users, x ≠ JVal.null)
    (hF : users.find? (usernameMatches (some (.str uname))) = some u)
    (htr : jTruthy u = true) (hns : u ≠ JVal.null) :
    authenticate st uname pw =
      (if jsEq (jGet u "password") (some (.str pw)) then Except.ok (some u)
       else Except.ok none) := by
  unfold authenticate
  rw [getUser_arr st users uname harr hnn, hF]
  rw [show jsOrNull (some u) = some u from by simp [jsOrNull, htr]]
  show (if jTruthy u then
      (match jsMember u "password" with
        | .error e => Except.error e
        | .ok pv =>
            if jsEq pv (some (.str pw)) then Except.ok (some u)
            else Except.ok none)
      else Except.ok none) = _
  rw [jsMember_not_null u "password" hns, htr]
  rfl

theorem lookupF_some_key (b : List (String × JVal)) (k : String) (w : JVal)
    (h : lookupF b k = some w) : ∃ q ∈ b, q.1 = k := by
  induction b with
  | nil => exact Option.noConfusion h
  | cons p b ih =>
      cases hp : p.1 == k
      · simp only [lookupF, hp] at h
        simp at h
        obtain ⟨q, hq, hk⟩ := ih h
        exact ⟨q, List.mem_cons_of_mem p hq, hk⟩
      · exact ⟨p, List.mem_cons_self p b, eq_of_beq hp⟩

theorem objMerge_disjoint (a b : List (String × JVal))
    (h : ∀ q ∈ b, keyMem a q.1 = false) : objMerge a b = a ++ b := by
  have hmap : a.map (overrideF b) = a := by
    apply map_eq_self_of_forall
    intro p hp
    cases hl : lookupF b p.1 with
    | none => unfold overrideF; rw [hl]
    | some w =>
        exfalso
        obtain ⟨q, hq, hk⟩ := lookupF_some_key b p.1 w hl
        have h1 := h q hq
        rw [hk, keyMem_of_mem a p hp] at h1
        exact Bool.noConfusion h1
  have hfil : b.filter (fun q => !(keyMem a q.1)) = b := by
    apply List.filter_eq_self.mpr
    intro q hq
    rw [h q hq]
    rfl
  show a.map (overrideF b) ++ b.filter (fun q => !(keyMem a q.1)) = a ++ b
  rw [hmap, hfil]

/-! ## The claims -/

/-- C7: `authenticate(username, password)` returns the stored user record
exactly when a stored user has an exactly matching username and an exactly
matching password (strict string equality on both), and returns null
otherwise — so changing either field breaks authentication.  Stated over
a store whose user partition reads back as a list of non-null user
records with pairwise-distinct `username` fields (the specification's
UserStore invariant: a sequence of user records, at most one per
username; on a list with a `null` element the `find` callback's
`TypeError` would instead escape `authenticate` uncaught). -/
theorem authenticate_exact_match (st : Store) (users : List JVal)
    (uname pw : String) (r : JVal)
    (harr : getAllUsers st = .arr users)
    (hnn : ∀ u ∈ users, u ≠ JVal.null)
    (hn : (users.map (fun x => jGet x "username")).Nodup) :
    (authenticate st uname pw = .ok (some r) ↔
      (r ∈ users ∧ jGet r "username" = some (.str uname) ∧
        jGet r "password" = some (.str pw))) ∧
    (authenticate st uname pw = .ok none ↔
      ∀ x ∈ users, ¬(jGet x "username" = some (.str uname) ∧
        jGet x "password" = some (.str pw))) := by
  cases hF : users.find? (usernameMatches (some (.str uname))) with
  | none =>
      have hres : authenticate st uname pw = .ok none :=
        authenticate_of_find_none st users uname pw harr hnn hF
      have hnone := List.find?_eq_none.mp hF
      constructor
      · constructor
        · intro h
          rw [hres] at h
          exact Option.noConfusion (Except.ok.inj h)
        · rintro ⟨hmem, hun, _⟩
          exact absurd ((usernameMatches_iff uname r).mpr hun) (hnone r hmem)
      · constructor
        · rintro _ x hx ⟨hxu, _⟩
          exact (hnone x hx) ((usernameMatches_iff uname x).mpr hxu)
        · intro _
          exact hres
  | some u =>
      have hPu : usernameMatches (some (.str uname)) u = true := List.find?_some hF
      have huu : jGet u "username" = some (.str uname) :=
        (usernameMatches_iff uname u).mp hPu
      have hmem : u ∈ users := List.mem_of_find?_eq_some hF
      have htr : jTruthy u = true := jTruthy_of_jGet u "username" _ huu
      have hns : u ≠ JVal.null := ne_null_of_jGet u "username" _ huu
      have hres : authenticate st uname pw =
          (if jsEq (jGet u "password") (some (.str pw)) then Except.ok (some u)
           else Except.ok none) :=
        authenticate_of_find_some st users uname pw u harr hnn hF htr hns
      cases hpw : jsEq (jGet u "password") (some (.str pw))
      · rw [hpw] at hres
        simp at hres
        constructor
        · constructor
          · intro h
            rw [hres] at h
            exact Option.noConfusion (Except.ok.inj h)
          · rintro ⟨hrm, hru, hrp⟩
            have hfind := find_username_unique users uname r hn hrm hru
            rw [hF] at hfind
            have hur : u = r := Option.some.inj hfind
            have hc : jsEq (jGet u "password") (some (.str pw)) = true := by
              rw [hur]
              exact (jsEq_some_str _ _).mpr hrp
            rw [hpw] at hc
            exact Bool.noConfusion hc
        · constructor
          · rintro _ x hx ⟨hxu, hxp⟩
            have hfind := find_username_unique users uname x hn hx hxu
            rw [hF] at hfind
            have hux : u = x := Option.some.inj hfind
            have hc : jsEq (jGet u "password") (some (.str pw)) = true := by
              rw [hux]
              exact (jsEq_some_str _ _).mpr hxp
            rw [hpw] at hc
            exact Bool.noConfusion hc
          · intro _
            exact hres
      · rw [hpw] at hres
        simp at hres
        constructor
        · constructor
          · intro h
            rw [hres] at h
            have hur : u = r := Option.some.inj (Except.ok.inj h)
            subst hur
            exact ⟨hmem, huu, (jsEq_some_str _ _).mp hpw⟩
          · rintro ⟨hrm, hru, _⟩
            have hfind := find_username_unique users uname r hn hrm hru
            rw [hF] at hfind
            have hur : u = r := Option.some.inj hfind
            rw [hres, hur]
        · constructor
          · intro h
            rw [hres] at h
            exact Option.noConfusion (Except.ok.inj h)
          · intro hall
            exact absurd ⟨huu, (jsEq_some_str _ _).mp hpw⟩ (hall u hmem)

/-- C7 witness: on a store holding exactly one user `alice` with password
`pw`, `authenticate "alice" "pw"` returns that record. -/
theorem authenticate_exact_match_witness :
    authenticate
      { emptyStore with userData := .val (.arr
          [JVal.obj [("username", JVal.str "alice"),
            ("password", JVal.str "pw")]]) }
      "alice" "pw" =
      .ok (some (JVal.obj [("username", JVal.str "alice"),
        ("password", JVal.str "pw")])) :=
  ((authenticate_exact_match
      { emptyStore with userData := .val (.arr
          [JVal.obj [("username", JVal.str "alice"),
            ("password", JVal.str "pw")]]) }
      [JVal.obj [("username", JVal.str "alice"), ("password", JVal.str "pw")]]
      "alice" "pw"
      (JVal.obj [("username", JVal.str "alice"), ("password", JVal.str "pw")])
      rfl
      (by
        intro u hu
        rw [List.mem_singleton.mp hu]
        intro hc
        exact JVal.noConfusion hc)
      (by simp)).1).mpr
    ⟨by simp, rfl, rfl⟩

/-- C8: `clearGameState()` and `clearHistory()` are idempotent: from any
store state, calling either twice yields the same store as calling it
once, the respective partition key is absent afterwards, and both are
total (they never raise). -/
theorem clear_idempotent (st : Store) :
    clearGameState (clearGameState st) = clearGameState st ∧
    (clearGameState st).gameState = .absent ∧
    clearHistory (clearHistory st) = clearHistory st ∧
    (clearHistory st).gameHistory = .absent :=
  ⟨rfl, rfl, rfl, rfl⟩

/-- C1 counterexample: on a store whose user payload cannot be decoded
(`JSON.parse` throws), `saveUser` does NOT return false — the decode
failure is swallowed inside `getAllUsers`, the save proceeds against an
empty list, returns true, and the partition is overwritten (it does not
remain malformed). -/
theorem saveUser_decode_failure_cex :
    (saveUser false (JVal.obj [("username", JVal.str "u")])
        { emptyStore with userData := .malformed }).1 = true ∧
    (saveUser false (JVal.obj [("username", JVal.str "u")])
        { emptyStore with userData := .malformed }).2.userData ≠
      Stored.malformed := by
  constructor
  · rfl
  · intro h
    exact Stored.noConfusion h

/-- C1 (amended): `saveUser` is total (never raises across the public
boundary) and returns false exactly when the underlying store raises on
write (capacity exceeded) or when its `try` block throws before the
write: the stored payload decodes to a non-array value, or the
`findIndex` callback throws a `TypeError` during the scan (a `null`
element is reached before any username match, or the record argument is
itself `null` while the list is non-empty).  In every failure case the
whole store — in particular the user partition — is left unchanged (no
partial write).  A payload `JSON.parse` rejects is swallowed by
`getAllUsers` instead: the save proceeds on an empty list, returns true,
and replaces the partition with the one-record list. -/
theorem saveUser_failure_semantics (setRaises : Bool) (r : JVal) (st : Store) :
    ((saveUser setRaises r st).1 = false ↔
      (setRaises = true ∨ saveUserThrows r st = true)) ∧
    ((saveUser setRaises r st).1 = false → (saveUser setRaises r st).2 = st) ∧
    (st.userData = .malformed →
      ((saveUser false r st).1 = true ∧
        (saveUser false r st).2.userData = .val (.arr [r]))) := by
  refine ⟨?_, ?_, ?_⟩
  · cases hg : getAllUsers st with
    | arr users =>
        cases hup : upsertUserE r users with
        | error e =>
            cases setRaises <;> simp [saveUser, saveUserThrows, hg, hup]
        | ok users2 =>
            cases setRaises <;> simp [saveUser, saveUserThrows, hg, hup]
    | null => simp [saveUser, saveUserThrows, hg]
    | bool b => simp [saveUser, saveUserThrows, hg]
    | num n => simp [saveUser, saveUserThrows, hg]
    | str s => simp [saveUser, saveUserThrows, hg]
    | obj fs => simp [saveUser, saveUserThrows, hg]
  · cases hg : getAllUsers st with
    | arr users =>
        cases hup : upsertUserE r users with
        | error e => simp [saveUser, hg, hup]
        | ok users2 => cases setRaises <;> simp [saveUser, hg, hup]
    | null => simp [saveUser, hg]
    | bool b => simp [saveUser, hg]
    | num n => simp [saveUser, hg]
    | str s => simp [saveUser, hg]
    | obj fs => simp [saveUser, hg]
  · intro hm
    have hg0 : getAllUsers st = .arr [] := by
      unfold getAllUsers
      rw [hm]
    simp [saveUser, hg0, upsertUserE]

/-- C1 witness: a raising write reports failure with the store unchanged,
and so does the callback's `TypeError` on a stored `null` element. -/
theorem saveUser_failure_semantics_witness :
    (saveUser true (JVal.obj []) emptyStore).1 = false ∧
    (saveUser true (JVal.obj []) emptyStore).2 = emptyStore ∧
    (saveUser false (JVal.obj [("username", JVal.str "u")])
        { emptyStore with userData := Stored.val (JVal.arr [JVal.null]) }).1 =
      false ∧
    (saveUser false (JVal.obj [("username", JVal.str "u")])
        { emptyStore with userData := Stored.val (JVal.arr [JVal.null]) }).2 =
      { emptyStore with userData := Stored.val (JVal.arr [JVal.null]) } :=
  ⟨rfl,
   (saveUser_failure_semantics true (JVal.obj []) emptyStore).2.1 rfl,
   rfl,
   (saveUser_failure_semantics false (JVal.obj [("username", JVal.str "u")])
      { emptyStore with userData := Stored.val (JVal.arr [JVal.null]) }).2.1
     rfl⟩

/-- C4: for a valid user record `r` (an object with a string `username`
field and duplicate-free keys) over a stored list of non-null records
(the specification's UserStore — on a `null` element the `findIndex`
callback would throw instead), `saveUser(r)` succeeds and a following
`getUser(r.username)` returns the shallow superset-merge of `r` over the
previously stored record of that username (fields of `r` overwrite
same-named fields, other fields survive) — or `r` itself when no such
record existed — and saving the same record twice leaves exactly the
store that saving it once produced (idempotent merge law). -/
theorem saveUser_getUser_merge (st : Store) (users : List JVal)
    (rf : List (String × JVal)) (uname : String)
    (harr : getAllUsers st = .arr users)
    (hnn : ∀ u ∈ users, u ≠ JVal.null)
    (hu : jGet (JVal.obj rf) "username" = some (.str uname))
    (hn : (rf.map Prod.fst).Nodup) :
    (saveUser false (JVal.obj rf) st).1 = true ∧
    (∀ prev, users.find? (usernameMatches (some (.str uname))) = some prev →
      getUser (saveUser false (JVal.obj rf) st).2 uname =
        .ok (some (.obj (objMerge (jFields prev) rf)))) ∧
    (users.find? (usernameMatches (some (.str uname))) = none →
      getUser (saveUser false (JVal.obj rf) st).2 uname =
        .ok (some (.obj rf))) ∧
    (saveUser false (JVal.obj rf) (saveUser false (JVal.obj rf) st).2).2 =
      (saveUser false (JVal.obj rf) st).2 := by
  have hro : JVal.obj rf ≠ JVal.null := fun hc => JVal.noConfusion hc
  have hup : upsertUserE (JVal.obj rf) users =
      .ok (upsertUser (JVal.obj rf) users) :=
    upsertUserE_ok (JVal.obj rf) users hro hnn
  have hnn2 : ∀ x ∈ upsertUser (JVal.obj rf) users, x ≠ JVal.null :=
    upsertUser_no_null (JVal.obj rf) users hro hnn
  have hsave : saveUser false (JVal.obj rf) st =
      (true, { st with
        userData := Stored.val (.arr (upsertUser (JVal.obj rf) users)) }) := by
    simp [saveUser, harr, hup]
  refine ⟨by rw [hsave], ?_, ?_, ?_⟩
  · intro prev hf
    rw [hsave]
    rw [getUser_arr { st with
        userData := Stored.val (.arr (upsertUser (JVal.obj rf) users)) }
      (upsertUser (JVal.obj rf) users) uname rfl hnn2]
    rw [find_upsertUser_found (JVal.obj rf) uname users hu prev hf]
    rfl
  · intro hf
    rw [hsave]
    rw [getUser_arr { st with
        userData := Stored.val (.arr (upsertUser (JVal.obj rf) users)) }
      (upsertUser (JVal.obj rf) users) uname rfl hnn2]
    rw [find_upsertUser_new (JVal.obj rf) uname users hu hf]
    rfl
  · rw [hsave]
    show (saveUser false (JVal.obj rf)
      { st with userData := .val (.arr (upsertUser (JVal.obj rf) users)) }).2 =
      { st with userData := .val (.arr (upsertUser (JVal.obj rf) users)) }
    have hup2 : upsertUserE (JVal.obj rf) (upsertUser (JVal.obj rf) users) =
        .ok (upsertUser (JVal.obj rf) (upsertUser (JVal.obj rf) users)) :=
      upsertUserE_ok (JVal.obj rf) (upsertUser (JVal.obj rf) users) hro hnn2
    have hsave2 : saveUser false (JVal.obj rf)
        { st with
          userData := Stored.val (.arr (upsertUser (JVal.obj rf) users)) } =
        (true, { st with
          userData := Stored.val (.arr (upsertUser (JVal.obj rf)
            (upsertUser (JVal.obj rf) users))) }) := by
      simp [saveUser, getAllUsers, hup2]
    rw [hsave2]
    show ({ st with userData := .val (.arr (upsertUser (JVal.obj rf)
      (upsertUser (JVal.obj rf) users))) } : Store) =
      { st with userData := .val (.arr (upsertUser (JVal.obj rf) users)) }
    rw [upsertUser_idem rf uname users hu hn]

/-- C4 witness: saving a fresh record `bob` into an empty store, then
`getUser "bob"`, returns exactly that record, and a second identical save
leaves the store unchanged. -/
theorem saveUser_getUser_merge_witness :
    getUser (saveUser false
      (JVal.obj [("username", JVal.str "bob"), ("password", JVal.str "x")])
      emptyStore).2 "bob" =
      .ok (some (JVal.obj [("username", JVal.str "bob"),
        ("password", JVal.str "x")])) ∧
    (saveUser false
      (JVal.obj [("username", JVal.str "bob"), ("password", JVal.str "x")])
      (saveUser false
        (JVal.obj [("username", JVal.str "bob"), ("password", JVal.str "x")])
        emptyStore).2).2 =
    (saveUser false
      (JVal.obj [("username", JVal.str "bob"), ("password", JVal.str "x")])
      emptyStore).2 :=
  ⟨(saveUser_getUser_merge emptyStore []
      [("username", JVal.str "bob"), ("password", JVal.str "x")] "bob"
      rfl (by simp) rfl (by simp)).2.2.1 rfl,
   (saveUser_getUser_merge emptyStore []
      [("username", JVal.str "bob"), ("password", JVal.str "x")] "bob"
      rfl (by simp) rfl (by simp)).2.2.2⟩

/-- C5: a successful `saveGameState(s)` returns true and an immediate
`loadGameState()` returns the stored snapshot: `s` extended with the
added `timestamp` (the save-time clock reading) and `version` (`"1.0"`)
fields — literally `jFields s ++` the two stamp fields whenever `s` does
not already carry them, and field-wise the stamp fields override `s`
otherwise; `hasSavedGame()` is false before any save and true after a
successful save. -/
theorem saveGameState_roundTrip (iso : String) (s : JVal) (st : Store) :
    (saveGameState iso false s st).1 = true ∧
    loadGameState (saveGameState iso false s st).2 = some (stampState iso s) ∧
    (∀ k, jGet (stampState iso s) k =
      optOr (lookupF [("timestamp", .str iso), ("version", .str "1.0")] k)
        (jGet s k)) ∧
    (keyMem (jFields s) "timestamp" = false →
      keyMem (jFields s) "version" = false →
      stampState iso s =
        .obj (jFields s ++ [("timestamp", .str iso), ("version", .str "1.0")])) ∧
    hasSavedGame (saveGameState iso false s st).2 = true ∧
    hasSavedGame emptyStore = false := by
  refine ⟨rfl, rfl, ?_, ?_, rfl, rfl⟩
  · intro k
    show lookupF (objMerge (jFields s)
      [("timestamp", .str iso), ("version", .str "1.0")]) k = _
    rw [lookupF_objMerge]
    rfl
  · intro h1 h2
    unfold stampState
    rw [objMerge_disjoint]
    intro q hq
    rcases List.mem_cons.mp hq with h | h
    · rw [h]; exact h1
    · rcases List.mem_cons.mp h with h3 | h3
      · rw [h3]; exact h2
      · cases h3

/-- C5 witness: saving a snapshot with one fresh field `a` into the empty
store appends exactly the two stamp fields, and `hasSavedGame` flips from
false to true. -/
theorem saveGameState_roundTrip_witness :
    stampState "T" (JVal.obj [("a", JVal.num 1)]) =
      .obj [("a", JVal.num 1), ("timestamp", JVal.str "T"),
        ("version", JVal.str "1.0")] ∧
    hasSavedGame emptyStore = false ∧
    hasSavedGame (saveGameState "T" false (JVal.obj [("a", JVal.num 1)])
      emptyStore).2 = true :=
  ⟨(saveGameState_roundTrip "T" (JVal.obj [("a", JVal.num 1)])
      emptyStore).2.2.2.1 rfl rfl,
   (saveGameState_roundTrip "T" (JVal.obj [("a", JVal.num 1)])
      emptyStore).2.2.2.2.2,
   (saveGameState_roundTrip "T" (JVal.obj [("a", JVal.num 1)])
      emptyStore).2.2.2.2.1⟩

/-- C6: `loadSettings()` returns exactly the default record
`{soundEnabled: true, autoSave: true, difficulty: "medium"}` when the
settings key is absent or its payload cannot be decoded; when a record is
stored it returns the shallow merge of the stored record over the
defaults (stored values win per field, stored extra fields are
preserved), so the result always carries the three known fields; in
particular after `saveSettings({difficulty: "hard"})` on an empty store it
returns `{soundEnabled: true, autoSave: true, difficulty: "hard"}`. -/
theorem loadSettings_defaults (st : Store) (v : JVal) :
    (st.settings = .absent → loadSettings st = .obj defaults) ∧
    (st.settings = .malformed → loadSettings st = .obj defaults) ∧
    (st.settings = .val v →
      (loadSettings st = .obj (objMerge defaults (jFields v)) ∧
       (∀ k, jGet (loadSettings st) k = optOr (jGet v k) (lookupF defaults k)) ∧
       (∀ k, keyMem defaults k = true →
         (jGet (loadSettings st) k).isSome = true))) ∧
    loadSettings (saveSettings false (.obj [("difficulty", .str "hard")])
        emptyStore) =
      .obj [("soundEnabled", .bool true), ("autoSave", .bool true),
        ("difficulty", .str "hard")] := by
  refine ⟨?_, ?_, ?_, ?_⟩
  · intro h
    unfold loadSettings
    rw [h]
  · intro h
    unfold loadSettings
    rw [h]
  · intro h
    have hload : loadSettings st = .obj (objMerge defaults (jFields v)) := by
      unfold loadSettings
      rw [h]
    refine ⟨hload, ?_, ?_⟩
    · intro k
      rw [hload]
      show lookupF (objMerge defaults (jFields v)) k = _
      rw [lookupF_objMerge]
      rfl
    · intro k hk
      rw [hload]
      show (lookupF (objMerge defaults (jFields v)) k).isSome = true
      rw [lookupF_objMerge]
      cases hd : lookupF defaults k with
      | none =>
          exfalso
          have := (keyMem_eq_false defaults k).mpr hd
          rw [hk] at this
          exact Bool.noConfusion this
      | some w => cases lookupF (jFields v) k <;> rfl
  · rfl

/-- C6 witness: with a stored settings record carrying only an extra
field, `loadSettings` keeps the stored field and still carries all three
defaults. -/
theorem loadSettings_defaults_witness :
    loadSettings { emptyStore with settings := .val (JVal.obj
      [("theme", JVal.str "dark")]) } =
      .obj (objMerge defaults [("theme", JVal.str "dark")]) ∧
    loadSettings { emptyStore with settings := .absent } = .obj defaults :=
  ⟨((loadSettings_defaults
      { emptyStore with settings := .val (JVal.obj [("theme", JVal.str "dark")]) }
      (JVal.obj [("theme", JVal.str "dark")])).2.2.1 rfl).1,
   (loadSettings_defaults { emptyStore with settings := .absent }
      (JVal.obj [])).1 rfl⟩

/-- C9: when the stored history payload is malformed, `getHistory`
absorbs the decode failure and returns the empty sequence, and the next
`addGameToHistory` call silently replaces the whole partition with a
one-entry list holding only the new stamped entry — the previously stored
payload is discarded and nothing is reported to the caller. -/
theorem addGame_malformed_replaces (iso : String) (idv : Int) (d : JVal)
    (st : Store) (h : st.gameHistory = .malformed) :
    getHistoryList st = [] ∧
    (addGameToHistory iso idv false d st).gameHistory =
      .val (.arr [stampGame iso idv d]) := by
  constructor
  · unfold getHistoryList getHistory
    rw [h]
  · unfold addGameToHistory getHistory
    rw [h]
    rfl

/-- C9 witness: a store whose history payload is malformed is replaced by
the single new entry. -/
theorem addGame_malformed_replaces_witness :
    (addGameToHistory "t" 0 false (JVal.obj [])
        { emptyStore with gameHistory := .malformed }).gameHistory =
      .val (.arr [stampGame "t" 0 (JVal.obj [])]) :=
  (addGame_malformed_replaces "t" 0 (JVal.obj [])
    { emptyStore with gameHistory := .malformed } rfl).2

/-! ## Lemmas about the history log -/

theorem addGame_step (iso : String) (idv : Int) (d : JVal) (st : Store)
    (h : histInvariant st = true) :
    getHistoryList (addGameToHistory iso idv false d st) =
      (stampGame iso idv d :: getHistoryList st).take 50 ∧
    histInvariant (addGameToHistory iso idv false d st) = true := by
  cases hg : st.gameHistory with
  | absent =>
      constructor
      · simp [addGameToHistory, getHistory, getHistoryList, hg]
      · simp [addGameToHistory, getHistory, histInvariant, hg]
  | malformed =>
      constructor
      · simp [addGameToHistory, getHistory, getHistoryList, hg]
      · simp [addGameToHistory, getHistory, histInvariant, hg]
  | val v =>
      cases v with
      | arr l =>
          constructor
          · simp [addGameToHistory, getHistory, getHistoryList, hg]
          · simp [addGameToHistory, getHistory, histInvariant, hg,
              List.length_take]
      | null => simp [histInvariant, hg] at h
      | bool b => simp [histInvariant, hg] at h
      | num n => simp [histInvariant, hg] at h
      | str s => simp [histInvariant, hg] at h
      | obj fs => simp [histInvariant, hg] at h

theorem histInvariant_length (st : Store) (h : histInvariant st = true) :
    (getHistoryList st).length ≤ 50 := by
  cases hg : st.gameHistory with
  | absent => simp [getHistoryList, getHistory, hg]
  | malformed => simp [getHistoryList, getHistory, hg]
  | val v =>
      cases v with
      | arr l =>
          simp [histInvariant, hg] at h
          simpa [getHistoryList, getHistory, hg] using h
      | null => simp [histInvariant, hg] at h
      | bool b => simp [histInvariant, hg] at h
      | num n => simp [histInvariant, hg] at h
      | str s => simp [histInvariant, hg] at h
      | obj fs => simp [histInvariant, hg] at h

theorem runAdds_cons (c : String × Int × JVal)
    (rest : List (String × Int × JVal)) (st : Store) :
    runAdds (c :: rest) st =
      runAdds rest (addGameToHistory c.1 c.2.1 false c.2.2 st) := rfl

theorem runAdds_invariant (calls : List (String × Int × JVal)) (st : Store)
    (h : histInvariant st = true) : histInvariant (runAdds calls st) = true := by
  induction calls generalizing st with
  | nil => exact h
  | cons c rest ih =>
      rw [runAdds_cons]
      exact ih _ ((addGame_step c.1 c.2.1 c.2.2 st h).2)

theorem runAdds_snoc (calls : List (String × Int × JVal))
    (c : String × Int × JVal) (st : Store) :
    runAdds (calls ++ [c]) st =
      addGameToHistory c.1 c.2.1 false c.2.2 (runAdds calls st) := by
  unfold runAdds
  rw [List.foldl_append]
  rfl

set_option maxRecDepth 100000 in
/-- C2: from any starting state satisfying the history invariant, any
sequence of `addGameToHistory` calls keeps `getHistory` at length at most
50; each call prepends its stamped entry at index 0 and truncates the
tail to 50 (the resulting list is the new entry followed by the first 49
old entries); and after the 60 distinct calls of `sixtyCalls` on an empty
store, `getHistory` has length exactly 50 and its first element is the
60th entry added. -/
theorem history_bounded_newestFirst (st : Store)
    (calls : List (String × Int × JVal)) (c : String × Int × JVal)
    (h : histInvariant st = true) :
    (getHistoryList (runAdds calls st)).length ≤ 50 ∧
    getHistoryList (runAdds (calls ++ [c]) st) =
      stampGame c.1 c.2.1 c.2.2 :: (getHistoryList (runAdds calls st)).take 49 ∧
    (getHistoryList (runAdds sixtyCalls emptyStore)).length = 50 ∧
    (getHistoryList (runAdds sixtyCalls emptyStore)).head? =
      some (stampGame "t" 59 (JVal.obj [("n", JVal.num 59)])) := by
  have hinv := runAdds_invariant calls st h
  refine ⟨histInvariant_length _ hinv, ?_, ?_, ?_⟩
  · rw [runAdds_snoc]
    rw [(addGame_step c.1 c.2.1 c.2.2 (runAdds calls st) hinv).1]
    rw [show (50 : Nat) = 49 + 1 from rfl, List.take_succ_cons]
  · rfl
  · rfl

/-- C2 witness: one call on the empty store prepends its stamped entry. -/
theorem history_bounded_newestFirst_witness :
    getHistoryList (runAdds ([] ++ [("t", ((0 : Int), JVal.obj []))])
      emptyStore) =
      stampGame "t" 0 (JVal.obj []) ::
        (getHistoryList (runAdds [] emptyStore)).take 49 :=
  (history_bounded_newestFirst emptyStore [] ("t", ((0 : Int), JVal.obj []))
    rfl).2.1

/-! ## Lemmas about the debounce machine -/

theorem runEvents_cons (iso : Nat → String) (e : Nat × GSEvent)
    (evts : List (Nat × GSEvent)) (g : RunState) (T : Nat) :
    runEvents iso (e :: evts) g T = runEvents iso evts (procEvent iso g e) T :=
  rfl

theorem autoCalls_cons (t : Nat) (s : JVal) (rest : List (Nat × JVal)) :
    autoCalls ((t, s) :: rest) = (t, GSEvent.auto s) :: autoCalls rest := rfl

theorem runEvents_auto_writes (iso : Nat → String) (calls : List (Nat × JVal))
    (T : Nat) (p : Option PendingSave) (st : Store) (w : List (Nat × JVal)) :
    (runEvents iso (autoCalls calls)
      { pending := p, store := st, writes := w } T).writes =
      w ++ fireList p (headTime calls T) ++ quietWrites calls T := by
  induction calls generalizing p st w with
  | nil =>
      show (fireDue iso T { pending := p, store := st, writes := w }).writes =
        w ++ fireList p T ++ []
      cases p with
      | none => simp [fireDue, fireList]
      | some tm =>
          by_cases hd : tm.deadline ≤ T
          · simp [fireDue, fireList, hd]
          · simp [fireDue, fireList, hd]
  | cons c rest ih =>
      obtain ⟨t, s⟩ := c
      rw [autoCalls_cons, runEvents_cons]
      cases p with
      | none =>
          have hstep : procEvent iso { pending := none, store := st, writes := w }
              (t, GSEvent.auto s) =
              { pending := some { deadline := t + 2000, gameState := s },
                store := st, writes := w } := by
            simp [procEvent, fireDue, autoSaveCall]
          rw [hstep, ih]
          show w ++ fireList (some { deadline := t + 2000, gameState := s })
              (headTime rest T) ++ quietWrites rest T =
            w ++ fireList none t ++ quietWrites ((t, s) :: rest) T
          simp [fireList, quietWrites, List.append_assoc]
      | some tm =>
          by_cases hd : tm.deadline ≤ t
          · have hstep : procEvent iso
                { pending := some tm, store := st, writes := w }
                (t, GSEvent.auto s) =
                { pending := some { deadline := t + 2000, gameState := s },
                  store := (saveGameState (iso tm.deadline) false tm.gameState
                    st).2,
                  writes := w ++ [(tm.deadline, tm.gameState)] } := by
              simp [procEvent, fireDue, autoSaveCall, hd]
            rw [hstep, ih]
            show (w ++ [(tm.deadline, tm.gameState)]) ++
                fireList (some { deadline := t + 2000, gameState := s })
                  (headTime rest T) ++ quietWrites rest T =
              w ++ fireList (some tm) t ++ quietWrites ((t, s) :: rest) T
            simp [fireList, quietWrites, hd, List.append_assoc]
          · have hstep : procEvent iso
                { pending := some tm, store := st, writes := w }
                (t, GSEvent.auto s) =
                { pending := some { deadline := t + 2000, gameState := s },
                  store := st, writes := w } := by
              simp [procEvent, fireDue, autoSaveCall, hd]
            rw [hstep, ih]
            show w ++ fireList (some { deadline := t + 2000, gameState := s })
                (headTime rest T) ++ quietWrites rest T =
              w ++ fireList (some tm) t ++ quietWrites ((t, s) :: rest) T
            simp [fireList, quietWrites, hd, List.append_assoc]

/-- C3: `autoSave` is a trailing-edge debounce over the single shared
timer slot (an `Option PendingSave`, so at most one pending timer exists
at any instant by construction): replaying any timed call sequence, the
machine's persisted writes are exactly `quietWrites` — the call at time
`t` yields one write, at `t + 2000`, precisely when no further call
arrives by that deadline, so each call cancels and restarts the pending
interval, no write happens before 2000 ms of quiet have passed since the
last call, and the write carries the state of that last call.  In the
specification's scenario — `autoSave(s1)` at 0 ms, `autoSave(s2)` at
500 ms, observed after 2100 ms of quiet — exactly one write occurs,
at 2500 ms, containing `s2`. -/
theorem autoSave_debounce (iso : Nat → String) (st : Store)
    (calls : List (Nat × JVal)) (T : Nat) (s1 s2 : JVal) :
    (runEvents iso (autoCalls calls) (initRun st) T).writes =
      quietWrites calls T ∧
    (runEvents iso (autoCalls [(0, s1), (500, s2)]) (initRun st) 2600).writes =
      [(2500, s2)] := by
  constructor
  · rw [show initRun st =
      { pending := none, store := st, writes := [] } from rfl]
    rw [runEvents_auto_writes]
    simp [fireList]
  · rw [show initRun st =
      { pending := none, store := st, writes := [] } from rfl]
    rw [runEvents_auto_writes]
    simp [fireList, quietWrites, headTime]

/-- C10: a pending `autoSave` timer survives `clearGameState`: processing
a `clearGameState` event never touches the timer slot (only a later
`autoSave` call can replace the pending write), so after `autoSave(s)` at
`t0` and `clearGameState()` at `t1` before the 2000 ms interval elapses,
the snapshot partition is absent (`hasSavedGame` false) — yet once time
reaches `t0 + 2000` the deferred write still fires and re-creates the
snapshot, making `hasSavedGame` true again. -/
theorem clearGameState_timer_survives (iso : Nat → String) (st : Store)
    (s : JVal) (t0 t1 T : Nat)
    (h1 : t1 < t0 + 2000) (hT : t0 + 2000 ≤ T) :
    (∀ g t, (procEvent iso g (t, GSEvent.clear)).pending =
      (fireDue iso t g).pending) ∧
    hasSavedGame ((List.foldl (procEvent iso) (initRun st)
      [(t0, GSEvent.auto s), (t1, GSEvent.clear)]).store) = false ∧
    hasSavedGame ((runEvents iso [(t0, GSEvent.auto s), (t1, GSEvent.clear)]
      (initRun st) T).store) = true ∧
    (runEvents iso [(t0, GSEvent.auto s), (t1, GSEvent.clear)]
      (initRun st) T).store.gameState =
      .val (stampState (iso (t0 + 2000)) s) := by
  have hn1 : ¬(t0 + 2000 ≤ t1) := by omega
  have hmid : List.foldl (procEvent iso) (initRun st)
      [(t0, GSEvent.auto s), (t1, GSEvent.clear)] =
      { pending := some { deadline := t0 + 2000, gameState := s },
        store := clearGameState st, writes := [] } := by
    simp [initRun, procEvent, fireDue, autoSaveCall, hn1]
  refine ⟨fun g t => rfl, ?_, ?_, ?_⟩
  · rw [hmid]
    rfl
  · unfold runEvents
    rw [hmid]
    simp [fireDue, hT, saveGameState, hasSavedGame]
  · unfold runEvents
    rw [hmid]
    simp [fireDue, hT, saveGameState]

/-- C10 witness: `autoSave` at 0 ms, `clearGameState` at 500 ms, observed
at 2600 ms — the cleared snapshot is back. -/
theorem clearGameState_timer_survives_witness :
    hasSavedGame ((runEvents (fun _ => "")
      [(0, GSEvent.auto (JVal.obj [])), (500, GSEvent.clear)]
      (initRun emptyStore) 2600).store) = true :=
  (clearGameState_timer_survives (fun _ => "") emptyStore (JVal.obj [])
    0 500 2600 (by omega) (by omega)).2.2.1
